import Mathlib

/-!
# upterm host internals: client registry and session command

A shallow embedding of `host/internal/client.go` and `host/internal/command.go`.

Go strings are modelled as lists of characters (the path functions look only at the
bytes `/` and `.`), `*os.File` handles and pty handles by their identity (a number), and
every call into the operating system or into a collaborator package is an explicit
field of a host record or an explicit state update on a world record. The functions of
the Go standard library (`strings`, `path/filepath`) and of `github.com/oklog/run`
follow their implementations.
-/

namespace Upterm

/-- Go `string`. -/
abbrev GoString := List Char

deriving instance DecidableEq for Except

/-- Go `error` values met in these files: an error produced by a collaborator (the
operating system, the terminal package, the pty layer, the fan-out writer, an actor),
or one built by a `fmt.Errorf` call of the two source files. -/
inductive GoError where
  | external (text : GoString)
  | projectRoot (err : GoError)
  | externalPath (arg : GoString)
  | startPty (err : GoError)
  | rawMode (err : GoError)
  | clientExists
deriving DecidableEq, Repr

/-- The text of an error, following the format strings of the source. -/
def GoError.Error : GoError → GoString
  | .external text => text
  | .projectRoot err => "failed to get project root: ".toList ++ err.Error
  | .externalPath arg => "command argument references external path: ".toList ++ arg
  | .startPty err => "unable to start pty: ".toList ++ err.Error
  | .rawMode err => "unable to set terminal to raw mode: ".toList ++ err.Error
  | .clientExists => "client already exists".toList

/-! ## `host/internal/client.go` -/

/-- The `api.Client` record behind a `*api.Client`: the identifier and the remaining
metadata (version, address, key fingerprint), kept as one opaque value. -/
structure Client where
  Id : GoString
  metadata : Nat
deriving DecidableEq, Repr

/-- The entries of a `sync.Map` holding clients keyed by identifier. -/
abbrev SyncMap := List (GoString × Client)

/-- `sync.Map.Load`: the value stored under `key`, if any. -/
def SyncMap.Load : SyncMap → GoString → Option Client
  | [], _ => none
  | (k, v) :: rest, key => if k = key then some v else SyncMap.Load rest key

/-- `sync.Map.Delete`: drops the entry stored under `key`. -/
def SyncMap.Delete : SyncMap → GoString → SyncMap
  | [], _ => []
  | (k, v) :: rest, key =>
    if k = key then SyncMap.Delete rest key else (k, v) :: SyncMap.Delete rest key

/-- `sync.Map.LoadOrStore`: returns the existing value and `true` when the key is
present, otherwise stores `value` and returns it with `false`. -/
def SyncMap.LoadOrStore (m : SyncMap) (key : GoString) (value : Client) :
    (Client × Bool) × SyncMap :=
  match SyncMap.Load m key with
  | some actual => ((actual, true), m)
  | none => ((value, false), (key, value) :: m)

/-- `sync.Map.Range` with a callback that always returns `true`: visits every value. -/
def SyncMap.Range (m : SyncMap) : List Client := m.map Prod.snd

/-- `ClientRepo`: the `clients` map (the mutex only serialises `Add` calls). -/
structure ClientRepo where
  clients : SyncMap
deriving DecidableEq, Repr

/-- `NewClientRepo`. -/
def NewClientRepo : ClientRepo := ⟨[]⟩

/-- `ClientRepo.Add`: the returned error (`none` is `nil`) and the registry afterwards. -/
def ClientRepo.Add (c : ClientRepo) (client : Client) : Option GoError × ClientRepo :=
  let r := SyncMap.LoadOrStore c.clients client.Id client
  if r.1.2 then (some GoError.clientExists, ⟨r.2⟩) else (none, ⟨r.2⟩)

/-- `ClientRepo.Delete`. -/
def ClientRepo.Delete (c : ClientRepo) (clientId : GoString) : ClientRepo :=
  ⟨SyncMap.Delete c.clients clientId⟩

/-- `ClientRepo.Get`: `none` is the `nil` result. -/
def ClientRepo.Get (c : ClientRepo) (clientId : GoString) : Option Client :=
  match SyncMap.Load c.clients clientId with
  | some val => some val
  | none => none

/-- `ClientRepo.Clients`. -/
def ClientRepo.Clients (c : ClientRepo) : List Client := SyncMap.Range c.clients

/-- An entry with identifier `id` is present in the registry. -/
def ClientRepo.present (c : ClientRepo) (id : GoString) : Prop :=
  ∃ v, (id, v) ∈ c.clients

/-! ## Go standard library as used by `host/internal/command.go` (Unix) -/

/-- `strings.HasPrefix`. -/
def strings.HasPrefix : GoString → GoString → Bool
  | _, [] => true
  | [], _ :: _ => false
  | c :: s, p :: ps => c = p && strings.HasPrefix s ps

/-- `strings.Contains`: `substr` occurs somewhere within `s`. -/
def strings.Contains : GoString → GoString → Bool
  | [], substr => strings.HasPrefix [] substr
  | c :: s, substr => strings.HasPrefix (c :: s) substr || strings.Contains s substr

/-- `strings.Join`. -/
def strings.Join : List GoString → GoString → GoString
  | [], _ => []
  | [a], _ => a
  | a :: b :: rest, sep => a ++ sep ++ strings.Join (b :: rest) sep

/-- `os.IsPathSeparator` on Unix. -/
def os.IsPathSeparator (c : Char) : Bool := c = '/'

/-- The inner loop of the `..` case of `filepath.Clean`,
`for out.w > dotdot && !os.IsPathSeparator(out.index(out.w)) { out.w-- }`,
started at write index `w`; the result is the final write index. -/
def filepath.backtrack (buf : List Char) (dotdot : Nat) : Nat → Nat
  | 0 => 0
  | w + 1 =>
    if w + 1 > dotdot && !os.IsPathSeparator (buf.getD (w + 1) '/') then
      filepath.backtrack buf dotdot w
    else w + 1

/-- The main loop `for r < n` of `filepath.Clean`. `rest` is `path[r:]`, `out` is the
written part of the buffer (so `out.w` is `out.length`), and the first argument bounds
the number of iterations; every iteration consumes at least one byte of `rest`. -/
def filepath.cleanLoop (rooted : Bool) : Nat → List Char → List Char → Nat → List Char
  | 0, _, out, _ => out
  | _ + 1, [], out, _ => out
  | fuel + 1, c :: tl, out, dotdot =>
    if os.IsPathSeparator c then
      -- empty path element
      filepath.cleanLoop rooted fuel tl out dotdot
    else if c = '.' ∧ (tl = [] ∨ os.IsPathSeparator (tl.headD '.') = true) then
      -- . element
      filepath.cleanLoop rooted fuel tl out dotdot
    else if c = '.' ∧ tl.head? = some '.' ∧
        (tl.tail = [] ∨ os.IsPathSeparator (tl.tail.headD '.') = true) then
      -- .. element: remove to last separator
      if out.length > dotdot then
        -- can backtrack
        filepath.cleanLoop rooted fuel tl.tail
          (out.take (filepath.backtrack out dotdot (out.length - 1))) dotdot
      else if !rooted then
        -- cannot backtrack, but not rooted, so append .. element
        let out1 := (if out.length > 0 then out ++ ['/'] else out) ++ ['.', '.']
        filepath.cleanLoop rooted fuel tl.tail out1 out1.length
      else
        filepath.cleanLoop rooted fuel tl.tail out dotdot
    else
      -- real path element: add slash if needed, copy element
      let out1 :=
        if (rooted && out.length != 1) || (!rooted && out.length != 0) then out ++ ['/']
        else out
      filepath.cleanLoop rooted fuel ((c :: tl).dropWhile (fun x => !os.IsPathSeparator x))
        (out1 ++ (c :: tl).takeWhile (fun x => !os.IsPathSeparator x)) dotdot

/-- `filepath.Clean` on Unix (no volume name). -/
def filepath.Clean (path : GoString) : GoString :=
  if path = [] then ['.']
  else
    let rooted := os.IsPathSeparator (path.headD '.')
    let out :=
      if rooted then filepath.cleanLoop rooted path.length path.tail ['/'] 1
      else filepath.cleanLoop rooted path.length path [] 0
    -- Turn empty string into "."
    if out.length = 0 then ['.'] else out

/-- `filepath.IsAbs` on Unix. -/
def filepath.IsAbs (path : GoString) : Bool := strings.HasPrefix path ['/']

/-- `filepath.Join`: the elements from the first non-empty one on, joined with the
separator and cleaned; the empty string when every element is empty. -/
def filepath.Join : List GoString → GoString
  | [] => []
  | e :: rest =>
    if e ≠ [] then filepath.Clean (strings.Join (e :: rest) ['/'])
    else filepath.Join rest

/-- `filepath.Abs` on Unix, given the outcome of `os.Getwd`. -/
def filepath.Abs (getwd : Except GoError GoString) (path : GoString) :
    Except GoError GoString :=
  if filepath.IsAbs path then .ok (filepath.Clean path)
  else
    match getwd with
    | .error err => .error err
    | .ok wd => .ok (filepath.Join [wd, path])

/-! ## `host/internal/command.go` -/

/-- Identity of an `*os.File`. -/
abbrev Handle := Nat

/-- The package variable `os.Stdout`. -/
def os.Stdout : Handle := 1

/-- Identity of a `*pty`. -/
abbrev Pty := Nat

/-- Identity of a `context.Context`. -/
abbrev Context := Nat

/-- A terminal state as saved by `term.MakeRaw` and written back by `term.Restore`. -/
abbrev TermState := Nat

/-- The fields of `exec.Cmd` set by `exec.CommandContext` and by `Start`. -/
structure Cmd where
  ctx : Context
  Path : GoString
  Args : List GoString
  Env : List GoString
deriving DecidableEq, Repr

/-- `exec.CommandContext(ctx, name, arg...)`. `Path` is the name as given; the lookup of
a bare name through `PATH` is left out. -/
def exec.CommandContext (ctx : Context) (name : GoString) (arg : List GoString) : Cmd :=
  { ctx := ctx, Path := name, Args := name :: arg, Env := [] }

/-- The `command` struct. The `writers` and `eventEmitter` fields are references to
collaborators whose state is kept in `World`. -/
structure command where
  name : GoString
  args : List GoString
  env : List GoString
  cmd : Option Cmd
  ptmx : Option Pty
  stdin : Handle
  stdout : Handle
  ctx : Option Context
deriving DecidableEq, Repr

/-- `newCommand`. -/
def newCommand (name : GoString) (args : List GoString) (env : List GoString)
    (stdin : Handle) (stdout : Handle) : command :=
  { name := name, args := args, env := env, cmd := none, ptmx := none,
    stdin := stdin, stdout := stdout, ctx := none }

/-- The four actors that `Run` adds to its `run.Group`. -/
inductive Actor where
  | resizeWatcher
  | inputPump
  | outputPump
  | processWaiter
deriving DecidableEq, Repr

/-- Calls into collaborators that `Start` and `Run` make, in program order. -/
inductive Event where
  | startPty (cmd : Cmd)
  | makeRaw (fd : Handle)
  | restore (fd : Handle) (oldState : TermState)
  | signalNotify
  | groupAdd (a : Actor)
  | writersAppend (dst : Handle)
  | writersRemove (dst : Handle)
  | terminalDetached (ptmx : Option Pty)
  | cancel (a : Actor)
  | ptyClose (ptmx : Option Pty)
deriving DecidableEq, Repr

/-- What the surroundings answer to the calls of `Start` and `Run`: the outcome of
`os.Getwd`, the inherited environment `os.Environ()`, the outcome of `startPty` for a
given process, the error of `term.MakeRaw` (if any; a failing `MakeRaw` leaves the
terminal as it was) and the raw state it would set, the error of `term.Restore` (if
any; a failing `Restore` leaves the terminal in the state it has then), the error of
`writers.Append` (if any; a failing `Append` is taken to leave the writer as it was),
and the value that `g.Run()` receives first on its error channel, that is the result of
the first actor to return. -/
structure Host where
  Getwd : Except GoError GoString
  Environ : List GoString
  startPty : Cmd → Except GoError Pty
  makeRawErr : Option GoError
  rawOf : TermState → TermState
  restoreErr : Option GoError
  appendErr : Option GoError
  firstErr : Option GoError

/-- The state outside the `command` struct: the terminal state of the stdin handle
(`none` when `term.IsTerminal` is false for it), the destinations of the fan-out
writer, and the log of collaborator calls. -/
structure World where
  stdinState : Option TermState
  writers : List Handle
  events : List Event
deriving DecidableEq, Repr

/-- Appends one call to the log. -/
def World.log (w : World) (e : Event) : World :=
  { w with events := w.events ++ [e] }

/-- Modelled from the spec: the fan-out writer `uio.MultiWriter` is not among the source
files. `Append(destination)` registers the destination as one destination of the
writer, each destination being held once. -/
def MultiWriter.Append (w : World) (dst : Handle) : World :=
  { w with
    writers := if dst ∈ w.writers then w.writers else w.writers ++ [dst],
    events := w.events ++ [Event.writersAppend dst] }

/-- Modelled from the spec: the fan-out writer `uio.MultiWriter` is not among the source
files. `Remove(destination)` removes the destination; removing a destination that was
never added or is already removed is a no-op. -/
def MultiWriter.Remove (w : World) (dst : Handle) : World :=
  { w with
    writers := w.writers.filter (fun d => d ≠ dst),
    events := w.events ++ [Event.writersRemove dst] }

/-- `isPathInProject`; both `filepath.Abs` calls consult the working directory. -/
def isPathInProject (h : Host) (path projectRoot : GoString) : Bool :=
  match filepath.Abs h.Getwd path with
  | .error _ => false
  | .ok absPath =>
    match filepath.Abs h.Getwd projectRoot with
    | .error _ => false
    | .ok absProject => strings.HasPrefix absPath absProject

/-- The condition under which the loop of `Start` returns its error for `arg`. -/
def command.rejects (h : Host) (projectRoot arg : GoString) : Bool :=
  (strings.Contains arg ['/'] || strings.Contains arg ['.', '.']) &&
    !isPathInProject h arg projectRoot

/-- The loop `for _, arg := range c.args` of `Start`: the argument at which it returns
its error, or `none` when the loop runs to its end. -/
def command.checkArgs (h : Host) (projectRoot : GoString) : List GoString → Option GoString
  | [] => none
  | arg :: rest =>
    if strings.Contains arg ['/'] || strings.Contains arg ['.', '.'] then
      if !isPathInProject h arg projectRoot then some arg
      else command.checkArgs h projectRoot rest
    else command.checkArgs h projectRoot rest

/-- The part of `Start` after the argument loop: builds the process, sets its
environment, and calls `startPty`. -/
def command.launch (h : Host) (c : command) (ctx : Context) (w : World) :
    (Option Pty × Option GoError) × command × World :=
  let cmd := { exec.CommandContext ctx c.name c.args with Env := c.env ++ h.Environ }
  let c1 := { c with cmd := some cmd }
  match h.startPty cmd with
  | .error err =>
    ((none, some (GoError.startPty err)), { c1 with ptmx := none }, w.log (Event.startPty cmd))
  | .ok ptmx =>
    ((some ptmx, none), { c1 with ptmx := some ptmx }, w.log (Event.startPty cmd))

/-- `command.Start`: the returned pair, the struct afterwards, the world afterwards. -/
def command.Start (h : Host) (c : command) (ctx : Context) (w : World) :
    (Option Pty × Option GoError) × command × World :=
  let c0 := { c with ctx := some ctx }
  match h.Getwd with
  | .error err => ((none, some (GoError.projectRoot err)), c0, w)
  | .ok projectRoot =>
    match command.checkArgs h projectRoot c0.args with
    | some arg => ((none, some (GoError.externalPath arg)), c0, w)
    | none => command.launch h c0 ctx w

/-- The interrupt function that `Run` registers with each actor. -/
def command.interrupt (c : command) : Actor → World → World
  | .resizeWatcher, w => (w.log (Event.terminalDetached c.ptmx)).log (Event.cancel .resizeWatcher)
  | .inputPump, w => w.log (Event.cancel .inputPump)
  | .outputPump, w => (MultiWriter.Remove w os.Stdout).log (Event.cancel .outputPump)
  | .processWaiter, w => w.log (Event.ptyClose c.ptmx)

/-- `run.Group.Run` of `github.com/oklog/run`: with no actor it returns nil; otherwise
it takes the first value from the error channel, calls the interrupt function of every
actor in the order of registration, waits for all of them, and returns that value. -/
def run.Group.Run (h : Host) (c : command) (actors : List Actor) (w : World) :
    Option GoError × World :=
  if actors = [] then (none, w)
  else (h.firstErr, actors.foldl (fun w a => command.interrupt c a w) w)

/-- The part of `Run` after the raw-mode block: builds the group and runs it. -/
def command.runGroup (h : Host) (c : command) (isTty : Bool) (w : World) :
    Option GoError × World :=
  let g0 : List Actor := []
  -- resize watcher, only for a terminal
  let gw1 : List Actor × World :=
    if isTty then
      (g0 ++ [Actor.resizeWatcher], (w.log Event.signalNotify).log (Event.groupAdd .resizeWatcher))
    else (g0, w)
  -- input
  let gw2 : List Actor × World :=
    (gw1.1 ++ [Actor.inputPump], gw1.2.log (Event.groupAdd .inputPump))
  -- output
  match h.appendErr with
  | some err => (some err, gw2.2.log (Event.writersAppend c.stdout))
  | none =>
    let gw3 : List Actor × World :=
      (gw2.1 ++ [Actor.outputPump],
        (MultiWriter.Append gw2.2 c.stdout).log (Event.groupAdd .outputPump))
    let gw4 : List Actor × World :=
      (gw3.1 ++ [Actor.processWaiter], gw3.2.log (Event.groupAdd .processWaiter))
    run.Group.Run h c gw4.1 gw4.2

/-- The deferred `func() { _ = term.Restore(fd, oldState) }()` of `Run`: the call is
made, its error is discarded, and the saved state is written back only when the call
succeeds. -/
def command.deferredRestore (h : Host) (c : command) (oldState : TermState) (w : World) :
    World :=
  let w1 := w.log (Event.restore c.stdin oldState)
  match h.restoreErr with
  | some _ => w1
  | none => { w1 with stdinState := some oldState }

/-- `command.Run`: the returned error and the world afterwards. The deferred
`term.Restore` runs when the function returns after a successful `MakeRaw`. The work
of the actors while they run (copying bytes, applying window sizes) touches neither the
terminal state of stdin, nor the destinations of the writer, nor the pty's open state,
and is left out. -/
def command.Run (h : Host) (c : command) (w : World) : Option GoError × World :=
  match w.stdinState with
  | some oldState =>
    -- isTty
    match h.makeRawErr with
    | some err => (some (GoError.rawMode err), w)
    | none =>
      let w1 := { w with stdinState := some (h.rawOf oldState) }.log (Event.makeRaw c.stdin)
      let r := command.runGroup h c true w1
      (r.1, command.deferredRestore h c oldState r.2)
  | none => command.runGroup h c false w

/-- The path `p` is the root `root` itself or lies below it: the notion of "inside the
allowed root" of the specification, by path components rather than by characters. -/
def insideRoot (p root : GoString) : Bool :=
  p = root || root = ['/'] || strings.HasPrefix p (root ++ ['/'])

/-- Number of `Close` calls on the pty `p` in a log. -/
def ptyCloses (p : Pty) (events : List Event) : Nat :=
  events.count (Event.ptyClose (some p))

/-! ### Concrete hosts and worlds used to evaluate the definitions -/

/-- A host whose working directory is `wd`, whose inherited environment has two
entries, and where every collaborator call succeeds; the first actor ends cleanly. -/
def sampleHost (wd : String) : Host :=
  { Getwd := .ok wd.toList
    Environ := ["HOME=/root".toList, "TERM=xterm".toList]
    startPty := fun _ => .ok 3
    makeRawErr := none
    rawOf := fun s => s + 1000
    restoreErr := none
    appendErr := none
    firstErr := none }

/-- A world in which stdin is not a terminal, the fan-out writer has no destination and
nothing has been called yet. -/
def pipeWorld : World := { stdinState := none, writers := [], events := [] }

/-- A world in which stdin is a terminal in state `7`. -/
def ttyWorld : World := { stdinState := some 7, writers := [], events := [] }

/-- A command `cat` with the given arguments, stdin handle `0` and stdout handle `1`. -/
def sampleCommand (args : List String) : command :=
  newCommand "cat".toList (args.map String.toList) ["LANG=C".toList] 0 os.Stdout

/-- The command after a successful `Start` in `/home/user/project`: its pty is `3`. -/
def startedCommand (stdout : Handle) : command :=
  (command.Start (sampleHost "/home/user/project")
    (newCommand "cat".toList ["notes.txt".toList] [] 0 stdout) 0 pipeWorld).2.1

/-- A host on which `term.MakeRaw` fails. -/
def rawFailHost : Host :=
  { sampleHost "/home/user/project" with makeRawErr := some (GoError.external "EIO".toList) }

/-- A host on which `writers.Append` fails. -/
def appendFailHost : Host :=
  { sampleHost "/home/user/project" with appendErr := some (GoError.external "EPIPE".toList) }

/-- A host on which `term.Restore` fails. -/
def restoreFailHost : Host :=
  { sampleHost "/home/user/project" with restoreErr := some (GoError.external "EIO".toList) }

/-- A host on which the first actor to return reports an error. -/
def actorFailHost : Host :=
  { sampleHost "/home/user/project" with firstErr := some (GoError.external "exit status 1".toList) }

/-! ### Lemmas on the map -/

theorem SyncMap.Load_eq_none_iff (m : SyncMap) (key : GoString) :
    SyncMap.Load m key = none ↔ ∀ v, (key, v) ∉ m := by
  induction m with
  | nil => simp [SyncMap.Load]
  | cons e rest ih =>
    obtain ⟨k, v⟩ := e
    by_cases h : k = key
    · subst h
      simp only [SyncMap.Load, if_true]
      constructor
      · intro hc; cases hc
      · intro hc; exact absurd (List.mem_cons_self _ _) (hc v)
    · simp only [SyncMap.Load, if_neg h, ih]
      constructor
      · intro hc w hm
        rcases List.mem_cons.1 hm with he | hr
        · exact h (by cases he; rfl)
        · exact hc w hr
      · intro hc w hm
        exact hc w (List.mem_cons_of_mem _ hm)

theorem SyncMap.Load_isSome_iff (m : SyncMap) (key : GoString) :
    (∃ v, SyncMap.Load m key = some v) ↔ ∃ v, (key, v) ∈ m := by
  constructor
  · intro ⟨v, hv⟩
    by_contra hc
    have : SyncMap.Load m key = none :=
      (SyncMap.Load_eq_none_iff m key).2 (fun w hw => hc ⟨w, hw⟩)
    rw [this] at hv; cases hv
  · intro ⟨v, hv⟩
    cases hl : SyncMap.Load m key with
    | some w => exact ⟨w, rfl⟩
    | none => exact absurd hv ((SyncMap.Load_eq_none_iff m key).1 hl v)

theorem SyncMap.Load_Delete_self (m : SyncMap) (key : GoString) :
    SyncMap.Load (SyncMap.Delete m key) key = none := by
  induction m with
  | nil => rfl
  | cons e rest ih =>
    obtain ⟨k, v⟩ := e
    by_cases h : k = key
    · simp [SyncMap.Delete, h, ih]
    · simp [SyncMap.Delete, SyncMap.Load, h, ih]

theorem SyncMap.Load_Delete_other (m : SyncMap) (key j : GoString) (hj : j ≠ key) :
    SyncMap.Load (SyncMap.Delete m key) j = SyncMap.Load m j := by
  induction m with
  | nil => rfl
  | cons e rest ih =>
    obtain ⟨k, v⟩ := e
    by_cases h : k = key
    · have hkj : ¬ k = j := fun hk => hj (hk ▸ h)
      simp only [SyncMap.Delete, SyncMap.Load, if_pos h, if_neg hkj, ih]
    · by_cases hk : k = j
      · simp only [SyncMap.Delete, SyncMap.Load, if_neg h, if_pos hk]
      · simp only [SyncMap.Delete, SyncMap.Load, if_neg h, if_neg hk, ih]

theorem SyncMap.Delete_absent (m : SyncMap) (key : GoString)
    (h : SyncMap.Load m key = none) : SyncMap.Delete m key = m := by
  induction m with
  | nil => rfl
  | cons e rest ih =>
    obtain ⟨k, v⟩ := e
    by_cases hk : k = key
    · simp [SyncMap.Load, hk] at h
    · simp only [SyncMap.Load, if_neg hk] at h
      simp [SyncMap.Delete, hk, ih h]

theorem ClientRepo.Get_eq_Load (c : ClientRepo) (id : GoString) :
    c.Get id = SyncMap.Load c.clients id := by
  unfold ClientRepo.Get
  cases SyncMap.Load c.clients id <;> rfl

theorem ClientRepo.present_iff (c : ClientRepo) (id : GoString) :
    c.present id ↔ ∃ v, c.Get id = some v := by
  unfold ClientRepo.present
  rw [← SyncMap.Load_isSome_iff]
  simp [ClientRepo.Get_eq_Load]


/-! ### Registry -/

/-- C4. `Add` is a check-and-insert: it fails with the already-exists error exactly when
an entry with the client's identifier is present; on failure the registry is unchanged
and `Get` still returns the original entry; on success `Get` returns the new client and
every other identifier is unchanged; a second `Add` with the same identifier fails. -/
theorem ClientRepo.Add_check_and_insert (r : ClientRepo) (c : Client) :
    ((r.Add c).1 = some GoError.clientExists ↔ r.present c.Id) ∧
    ((r.Add c).1 = none ↔ ¬ r.present c.Id) ∧
    (r.present c.Id →
      (r.Add c).2 = r ∧ (r.Add c).2.Get c.Id = r.Get c.Id ∧ ∃ v, r.Get c.Id = some v) ∧
    (¬ r.present c.Id →
      (r.Add c).2.Get c.Id = some c ∧ ∀ j, j ≠ c.Id → (r.Add c).2.Get j = r.Get j) ∧
    (∀ c2 : Client, c2.Id = c.Id → ((r.Add c).2.Add c2).1 = some GoError.clientExists) := by
  have key : ∀ (q : ClientRepo) (d : Client),
      (SyncMap.Load q.clients d.Id = none → q.Add d = (none, ⟨(d.Id, d) :: q.clients⟩)) ∧
      (∀ v, SyncMap.Load q.clients d.Id = some v → q.Add d = (some GoError.clientExists, q)) := by
    intro q d
    constructor
    · intro hl
      simp [ClientRepo.Add, SyncMap.LoadOrStore, hl]
    · intro v hl
      simp [ClientRepo.Add, SyncMap.LoadOrStore, hl]
  have hpres : r.present c.Id ↔ ∃ v, SyncMap.Load r.clients c.Id = some v := by
    rw [ClientRepo.present_iff]; simp [ClientRepo.Get_eq_Load]
  cases hl : SyncMap.Load r.clients c.Id with
  | none =>
    have hadd := (key r c).1 hl
    have hnp : ¬ r.present c.Id := by
      rw [hpres, hl]; simp
    have hget : (r.Add c).2.Get c.Id = some c := by
      rw [hadd, ClientRepo.Get_eq_Load]; simp [SyncMap.Load]
    refine ⟨?_, ?_, ?_, ?_, ?_⟩
    · rw [hadd]; simp [hnp]
    · rw [hadd]; simp [hnp]
    · intro hp; exact absurd hp hnp
    · intro _
      refine ⟨hget, ?_⟩
      intro j hj
      rw [hadd, ClientRepo.Get_eq_Load, ClientRepo.Get_eq_Load]
      have hne : ¬ c.Id = j := fun e => hj e.symm
      simp only [SyncMap.Load, if_neg hne]
    · intro c2 hc2
      have hl2 : SyncMap.Load (r.Add c).2.clients c2.Id = some c := by
        rw [hc2, ← ClientRepo.Get_eq_Load]; exact hget
      rw [((key (r.Add c).2 c2).2 c hl2)]
  | some v =>
    have hadd := (key r c).2 v hl
    have hp : r.present c.Id := hpres.2 ⟨v, hl⟩
    refine ⟨?_, ?_, ?_, ?_, ?_⟩
    · rw [hadd]; simp [hp]
    · rw [hadd]; simp [hp]
    · intro _
      rw [hadd]
      exact ⟨rfl, rfl, ⟨v, by rw [ClientRepo.Get_eq_Load]; exact hl⟩⟩
    · intro hnp; exact absurd hp hnp
    · intro c2 hc2
      have hl2 : SyncMap.Load (r.Add c).2.clients c2.Id = some v := by
        rw [hadd, hc2]; exact hl
      rw [((key (r.Add c).2 c2).2 v hl2)]

/-- Witness for C4 on scenario C: the first `Add` of `c1` succeeds, a second `Add` with
the same identifier fails and `Get` still returns the first entry. -/
theorem ClientRepo.Add_check_and_insert_witness :
    (NewClientRepo.Add ⟨"c1".toList, 1⟩).1 = none ∧
    ((NewClientRepo.Add ⟨"c1".toList, 1⟩).2.Add ⟨"c1".toList, 2⟩).1 = some GoError.clientExists ∧
    ((NewClientRepo.Add ⟨"c1".toList, 1⟩).2.Add ⟨"c1".toList, 2⟩).2.Get "c1".toList
      = some ⟨"c1".toList, 1⟩ :=
  ⟨by decide,
   (ClientRepo.Add_check_and_insert NewClientRepo ⟨"c1".toList, 1⟩).2.2.2.2 ⟨"c1".toList, 2⟩ rfl,
   by decide⟩

/-- C5. `Delete` removes exactly one key: afterwards `Get` of that identifier is absent
and every other identifier is unchanged; deleting an absent identifier leaves the
registry unchanged, and a following `Add` with that identifier succeeds. -/
theorem ClientRepo.Delete_removes_one_key (r : ClientRepo) (id : GoString) :
    (r.Delete id).Get id = none ∧
    (∀ j, j ≠ id → (r.Delete id).Get j = r.Get j) ∧
    (¬ r.present id → r.Delete id = r) ∧
    (∀ c : Client, c.Id = id →
      ((r.Delete id).Add c).1 = none ∧ ((r.Delete id).Add c).2.Get id = some c) := by
  have hself : SyncMap.Load (r.Delete id).clients id = none :=
    SyncMap.Load_Delete_self r.clients id
  refine ⟨?_, ?_, ?_, ?_⟩
  · rw [ClientRepo.Get_eq_Load]; exact hself
  · intro j hj
    rw [ClientRepo.Get_eq_Load, ClientRepo.Get_eq_Load]
    exact SyncMap.Load_Delete_other r.clients id j hj
  · intro hnp
    have hl : SyncMap.Load r.clients id = none := by
      cases hl : SyncMap.Load r.clients id with
      | none => rfl
      | some v =>
        exact absurd ((ClientRepo.present_iff r id).2
          ⟨v, by rw [ClientRepo.Get_eq_Load]; exact hl⟩) hnp
    show ClientRepo.mk (SyncMap.Delete r.clients id) = r
    rw [SyncMap.Delete_absent r.clients id hl]
  · intro c hc
    subst hc
    have hadd : (r.Delete c.Id).Add c = (none, ⟨(c.Id, c) :: (r.Delete c.Id).clients⟩) := by
      simp [ClientRepo.Add, SyncMap.LoadOrStore, hself]
    rw [hadd]
    refine ⟨rfl, ?_⟩
    rw [ClientRepo.Get_eq_Load]
    simp [SyncMap.Load]

/-- Witness for C5: deleting the absent `c2` from a registry holding `c1` changes
nothing, and deleting `c1` makes it absent. -/
theorem ClientRepo.Delete_removes_one_key_witness :
    (NewClientRepo.Add ⟨"c1".toList, 1⟩).2.Delete "c2".toList
      = (NewClientRepo.Add ⟨"c1".toList, 1⟩).2 ∧
    ((NewClientRepo.Add ⟨"c1".toList, 1⟩).2.Delete "c1".toList).Get "c1".toList = none :=
  ⟨(ClientRepo.Delete_removes_one_key (NewClientRepo.Add ⟨"c1".toList, 1⟩).2 "c2".toList).2.2.1
      (by
        rw [ClientRepo.present_iff]
        intro ⟨v, hv⟩
        have hn : (NewClientRepo.Add ⟨"c1".toList, 1⟩).2.Get "c2".toList = none := by decide
        rw [hn] at hv
        cases hv),
   by decide⟩

/-! ### Path guard and `Start` -/

theorem command.checkArgs_cons (h : Host) (root arg : GoString) (rest : List GoString) :
    command.checkArgs h root (arg :: rest) =
      if command.rejects h root arg = true then some arg
      else command.checkArgs h root rest := by
  unfold command.rejects
  rw [command.checkArgs]
  cases strings.Contains arg ['/'] || strings.Contains arg ['.', '.'] <;>
    cases isPathInProject h arg root <;> simp

theorem command.checkArgs_eq_none_iff (h : Host) (root : GoString) (args : List GoString) :
    command.checkArgs h root args = none ↔ ∀ a ∈ args, command.rejects h root a = false := by
  induction args with
  | nil => simp [command.checkArgs]
  | cons arg rest ih =>
    rw [command.checkArgs_cons]
    by_cases hr : command.rejects h root arg = true
    · simp [hr]
    · simp only [if_neg hr, ih, List.mem_cons, forall_eq_or_imp]
      constructor
      · intro hrest
        exact ⟨by simpa using hr, hrest⟩
      · intro hall
        exact hall.2

theorem command.checkArgs_first (h : Host) (root : GoString) (args : List GoString)
    (hex : ∃ a ∈ args, command.rejects h root a = true) :
    ∃ pre a post, args = pre ++ a :: post ∧
      (∀ x ∈ pre, command.rejects h root x = false) ∧
      command.rejects h root a = true ∧
      command.checkArgs h root args = some a := by
  induction args with
  | nil =>
    obtain ⟨a, ha, _⟩ := hex
    cases ha
  | cons arg rest ih =>
    by_cases hr : command.rejects h root arg = true
    · refine ⟨[], arg, rest, rfl, ?_, hr, ?_⟩
      · intro x hx; cases hx
      · rw [command.checkArgs_cons, if_pos hr]
    · have hex2 : ∃ a ∈ rest, command.rejects h root a = true := by
        obtain ⟨a, ha, hra⟩ := hex
        rcases List.mem_cons.1 ha with he | hin
        · subst he; exact absurd hra hr
        · exact ⟨a, hin, hra⟩
      obtain ⟨pre, a, post, hsplit, hpre, hra, hchk⟩ := ih hex2
      refine ⟨arg :: pre, a, post, ?_, ?_, hra, ?_⟩
      · rw [hsplit]; rfl
      · intro x hx
        rcases List.mem_cons.1 hx with he | hin
        · subst he; simpa using hr
        · exact hpre x hin
      · rw [command.checkArgs_cons, if_neg hr, hchk]

/-- C1, evaluated on the code. With working directory `/home/user/project`, the
argument `../project-backup/id_rsa` contains `..` and a separator and resolves to
`/home/user/project-backup/id_rsa`, which is neither the root nor below it; yet
`isPathInProject` answers true, because the root is a prefix of it as a string of
characters, and `Start` goes on to start the pty. -/
theorem Start_accepts_sibling_of_root :
    strings.Contains "../project-backup/id_rsa".toList ['.', '.'] = true ∧
    strings.Contains "../project-backup/id_rsa".toList ['/'] = true ∧
    filepath.Abs (sampleHost "/home/user/project").Getwd "../project-backup/id_rsa".toList
      = .ok "/home/user/project-backup/id_rsa".toList ∧
    insideRoot "/home/user/project-backup/id_rsa".toList "/home/user/project".toList = false ∧
    isPathInProject (sampleHost "/home/user/project") "../project-backup/id_rsa".toList
      "/home/user/project".toList = true ∧
    (command.Start (sampleHost "/home/user/project")
      (sampleCommand ["../project-backup/id_rsa"]) 0 pipeWorld).1 = (some 3, none) ∧
    (command.Start (sampleHost "/home/user/project")
      (sampleCommand ["../project-backup/id_rsa"]) 0 pipeWorld).2.2.events.length = 1 := by
  decide

/-- C2. When no argument contains a separator and none contains `..`, and the working
directory is available, `Start` does not return the argument-rejected error: it is the
process-creation part alone, which calls `startPty` once with the built process. -/
theorem Start_passes_plain_args (h : Host) (c : command) (ctx : Context) (w : World)
    (root : GoString) (hwd : h.Getwd = .ok root)
    (hplain : ∀ a ∈ c.args,
      strings.Contains a ['/'] = false ∧ strings.Contains a ['.', '.'] = false) :
    (∀ x, (command.Start h c ctx w).1.2 ≠ some (GoError.externalPath x)) ∧
    command.Start h c ctx w = command.launch h { c with ctx := some ctx } ctx w ∧
    (command.Start h c ctx w).2.2.events = w.events ++
      [Event.startPty { exec.CommandContext ctx c.name c.args with Env := c.env ++ h.Environ }] := by
  have hnone : command.checkArgs h root c.args = none := by
    rw [command.checkArgs_eq_none_iff]
    intro a ha
    obtain ⟨h1, h2⟩ := hplain a ha
    simp [command.rejects, h1, h2]
  have hstart : command.Start h c ctx w = command.launch h { c with ctx := some ctx } ctx w := by
    simp [command.Start, hwd, hnone]
  refine ⟨?_, hstart, ?_⟩
  · intro x
    rw [hstart]
    simp only [command.launch]
    split <;> simp
  · rw [hstart]
    simp only [command.launch]
    split <;> simp [World.log]

/-- Witness for C2: arguments `-n` and `notes.txt` in `/home/user/project`. -/
theorem Start_passes_plain_args_witness :
    (sampleHost "/home/user/project").Getwd = .ok "/home/user/project".toList ∧
    (command.Start (sampleHost "/home/user/project") (sampleCommand ["-n", "notes.txt"]) 0
      pipeWorld).1 = (some 3, none) ∧
    ∀ x, (command.Start (sampleHost "/home/user/project") (sampleCommand ["-n", "notes.txt"]) 0
      pipeWorld).1.2 ≠ some (GoError.externalPath x) :=
  ⟨rfl, by decide,
    (Start_passes_plain_args (sampleHost "/home/user/project")
      (sampleCommand ["-n", "notes.txt"]) 0 pipeWorld "/home/user/project".toList rfl
      (by decide)).1⟩

/-- C3. When some argument is rejected by the guard, `Start` returns a nil pty and the
error naming the first such argument in list order; `startPty` is not called (the log of
calls is unchanged) and the `cmd` and `ptmx` fields stay as they were. -/
theorem Start_rejection_launches_nothing (h : Host) (c : command) (ctx : Context)
    (w : World) (root : GoString) (hwd : h.Getwd = .ok root)
    (hex : ∃ a ∈ c.args, command.rejects h root a = true) :
    ∃ pre a post, c.args = pre ++ a :: post ∧
      (∀ x ∈ pre, command.rejects h root x = false) ∧
      command.rejects h root a = true ∧
      (command.Start h c ctx w).1 = (none, some (GoError.externalPath a)) ∧
      (GoError.externalPath a).Error =
        "command argument references external path: ".toList ++ a ∧
      (command.Start h c ctx w).2.2 = w ∧
      (∀ cmd, Event.startPty cmd ∈ (command.Start h c ctx w).2.2.events →
        Event.startPty cmd ∈ w.events) ∧
      (command.Start h c ctx w).2.1.cmd = c.cmd ∧
      (command.Start h c ctx w).2.1.ptmx = c.ptmx ∧
      (command.Start h c ctx w).2.1 = { c with ctx := some ctx } := by
  obtain ⟨pre, a, post, hsplit, hpre, hra, hchk⟩ := command.checkArgs_first h root c.args hex
  have hstart : command.Start h c ctx w =
      ((none, some (GoError.externalPath a)), { c with ctx := some ctx }, w) := by
    simp [command.Start, hwd, hchk]
  refine ⟨pre, a, post, hsplit, hpre, hra, ?_, rfl, ?_, ?_, ?_, ?_, ?_⟩ <;> rw [hstart]
  intro cmd hc
  exact hc

/-- Witness for C3 on scenario B: the argument `../../etc/passwd` after a plain one. -/
theorem Start_rejection_launches_nothing_witness :
    (command.Start (sampleHost "/home/user/project")
      (sampleCommand ["-n", "../../etc/passwd", "/etc/shadow"]) 0 pipeWorld).1
      = (none, some (GoError.externalPath "../../etc/passwd".toList)) ∧
    ∃ pre a post, (sampleCommand ["-n", "../../etc/passwd", "/etc/shadow"]).args
        = pre ++ a :: post ∧
      (∀ x ∈ pre, command.rejects (sampleHost "/home/user/project")
        "/home/user/project".toList x = false) ∧
      command.rejects (sampleHost "/home/user/project") "/home/user/project".toList a = true ∧
      (command.Start (sampleHost "/home/user/project")
        (sampleCommand ["-n", "../../etc/passwd", "/etc/shadow"]) 0 pipeWorld).1
        = (none, some (GoError.externalPath a)) ∧
      (GoError.externalPath a).Error =
        "command argument references external path: ".toList ++ a ∧
      (command.Start (sampleHost "/home/user/project")
        (sampleCommand ["-n", "../../etc/passwd", "/etc/shadow"]) 0 pipeWorld).2.2 = pipeWorld ∧
      (∀ cmd, Event.startPty cmd ∈ (command.Start (sampleHost "/home/user/project")
        (sampleCommand ["-n", "../../etc/passwd", "/etc/shadow"]) 0 pipeWorld).2.2.events →
        Event.startPty cmd ∈ pipeWorld.events) ∧
      (command.Start (sampleHost "/home/user/project")
        (sampleCommand ["-n", "../../etc/passwd", "/etc/shadow"]) 0 pipeWorld).2.1.cmd
        = (sampleCommand ["-n", "../../etc/passwd", "/etc/shadow"]).cmd ∧
      (command.Start (sampleHost "/home/user/project")
        (sampleCommand ["-n", "../../etc/passwd", "/etc/shadow"]) 0 pipeWorld).2.1.ptmx
        = (sampleCommand ["-n", "../../etc/passwd", "/etc/shadow"]).ptmx ∧
      (command.Start (sampleHost "/home/user/project")
        (sampleCommand ["-n", "../../etc/passwd", "/etc/shadow"]) 0 pipeWorld).2.1
        = { sampleCommand ["-n", "../../etc/passwd", "/etc/shadow"] with ctx := some 0 } :=
  ⟨by decide,
    Start_rejection_launches_nothing (sampleHost "/home/user/project")
      (sampleCommand ["-n", "../../etc/passwd", "/etc/shadow"]) 0 pipeWorld
      "/home/user/project".toList rfl
      ⟨"../../etc/passwd".toList, by decide, by decide⟩⟩

/-- C10. After a `Start` that passes the argument loop, the environment of the child
process is the caller-supplied entries followed by the inherited ones: same length,
the first entries are the caller's in order, the rest the inherited ones in order; this
is the process handed to `startPty`. -/
theorem Start_child_environment (h : Host) (c : command) (ctx : Context) (w : World)
    (root : GoString) (hwd : h.Getwd = .ok root)
    (hpass : command.checkArgs h root c.args = none) :
    ∃ cmd, (command.Start h c ctx w).2.1.cmd = some cmd ∧
      (command.Start h c ctx w).2.2.events = w.events ++ [Event.startPty cmd] ∧
      cmd.Env = c.env ++ h.Environ ∧
      cmd.Env.length = c.env.length + h.Environ.length ∧
      cmd.Env.take c.env.length = c.env ∧
      cmd.Env.drop c.env.length = h.Environ ∧
      (∀ i, i < c.env.length → cmd.Env[i]? = c.env[i]?) ∧
      (∀ j, cmd.Env[c.env.length + j]? = h.Environ[j]?) := by
  refine ⟨{ exec.CommandContext ctx c.name c.args with Env := c.env ++ h.Environ }, ?_, ?_,
    rfl, ?_, ?_, ?_, ?_, ?_⟩
  · simp only [command.Start, hwd, hpass, command.launch]
    cases h.startPty { exec.CommandContext ctx c.name c.args with Env := c.env ++ h.Environ } <;>
      rfl
  · simp only [command.Start, hwd, hpass, command.launch]
    cases h.startPty { exec.CommandContext ctx c.name c.args with Env := c.env ++ h.Environ } <;>
      rfl
  · simp
  · simp
  · simp
  · intro i hi
    simp [List.getElem?_append_left hi]
  · intro j
    simp [List.getElem?_append_right]

/-- Witness for C10: one caller-supplied entry before the two inherited ones. -/
theorem Start_child_environment_witness :
    ∃ cmd, (command.Start (sampleHost "/home/user/project") (sampleCommand ["notes.txt"]) 0
        pipeWorld).2.1.cmd = some cmd ∧
      (command.Start (sampleHost "/home/user/project") (sampleCommand ["notes.txt"]) 0
        pipeWorld).2.2.events = pipeWorld.events ++ [Event.startPty cmd] ∧
      cmd.Env = (sampleCommand ["notes.txt"]).env ++ (sampleHost "/home/user/project").Environ ∧
      cmd.Env.length = (sampleCommand ["notes.txt"]).env.length
        + (sampleHost "/home/user/project").Environ.length ∧
      cmd.Env.take (sampleCommand ["notes.txt"]).env.length = (sampleCommand ["notes.txt"]).env ∧
      cmd.Env.drop (sampleCommand ["notes.txt"]).env.length
        = (sampleHost "/home/user/project").Environ ∧
      (∀ i, i < (sampleCommand ["notes.txt"]).env.length →
        cmd.Env[i]? = (sampleCommand ["notes.txt"]).env[i]?) ∧
      (∀ j, cmd.Env[(sampleCommand ["notes.txt"]).env.length + j]?
        = (sampleHost "/home/user/project").Environ[j]?) :=
  Start_child_environment (sampleHost "/home/user/project") (sampleCommand ["notes.txt"]) 0
    pipeWorld "/home/user/project".toList rfl (by decide)

/-! ### `Run` -/

/-- What `runGroup` does when `Append` fails: the error is returned as it is, after the
actors before the output pump were added and `Append` was called. -/
theorem command.runGroup_append_error (h : Host) (c : command) (isTty : Bool) (w : World)
    (err : GoError) (ha : h.appendErr = some err) :
    command.runGroup h c isTty w =
      (some err,
        { w with events := w.events ++
            ((if isTty then [Event.signalNotify, Event.groupAdd .resizeWatcher] else []) ++
              [Event.groupAdd .inputPump, Event.writersAppend c.stdout]) }) := by
  cases isTty <;> simp [command.runGroup, ha, World.log]

/-- What `runGroup` does when `Append` succeeds: all actors are added, the group runs,
every interrupt function is called once, and the first actor's result is returned. -/
theorem command.runGroup_append_ok (h : Host) (c : command) (isTty : Bool) (w : World)
    (ha : h.appendErr = none) :
    command.runGroup h c isTty w =
      (h.firstErr,
        { w with
          writers := (if c.stdout ∈ w.writers then w.writers else w.writers ++ [c.stdout]).filter
            (fun d => d ≠ os.Stdout),
          events := w.events ++
            ((if isTty then [Event.signalNotify, Event.groupAdd .resizeWatcher] else []) ++
              [Event.groupAdd .inputPump, Event.writersAppend c.stdout,
                Event.groupAdd .outputPump, Event.groupAdd .processWaiter] ++
              (if isTty then [Event.terminalDetached c.ptmx, Event.cancel .resizeWatcher]
                else []) ++
              [Event.cancel .inputPump, Event.writersRemove os.Stdout,
                Event.cancel .outputPump, Event.ptyClose c.ptmx]) }) := by
  cases isTty <;>
    simp [command.runGroup, ha, World.log, run.Group.Run, command.interrupt,
      MultiWriter.Append, MultiWriter.Remove]

/-- On the path through the actor group the pty is closed exactly once by `Run`. -/
theorem command.Run_group_path_closes_pty_once (h : Host) (c : command) (w : World)
    (p : Pty) (hp : c.ptmx = some p) (hraw : h.makeRawErr = none)
    (ha : h.appendErr = none) :
    ptyCloses p (command.Run h c w).2.events = ptyCloses p w.events + 1 := by
  cases hs : w.stdinState with
  | none =>
    simp [command.Run, hs, command.runGroup_append_ok h c false w ha, ptyCloses, hp]
  | some oldState =>
    cases hr : h.restoreErr <;>
      simp [command.Run, hs, hraw, command.runGroup_append_ok h c true _ ha, ptyCloses, hp,
        World.log, command.deferredRestore, hr]

/-- C7, evaluated on the code. Stdin is a terminal in state `7`, `term.MakeRaw`
succeeds and the deferred `term.Restore` fails: `Run` returns nil, its last call is
`Restore` with the saved state `7`, and the terminal is left in the raw state `1007`,
not in the state it had before. -/
theorem Run_failed_restore_leaves_raw_state :
    ttyWorld.stdinState = some 7 ∧
    restoreFailHost.makeRawErr = none ∧
    (command.Run restoreFailHost (startedCommand 1) ttyWorld).1 = none ∧
    (command.Run restoreFailHost (startedCommand 1) ttyWorld).2.events.getLast?
      = some (Event.restore 0 7) ∧
    (command.Run restoreFailHost (startedCommand 1) ttyWorld).2.stdinState = some 1007 ∧
    (command.Run restoreFailHost (startedCommand 1) ttyWorld).2.stdinState
      ≠ ttyWorld.stdinState := by
  decide

/-- C7, amended. When stdin is a terminal and the switch to raw mode succeeds, `Run`
calls `MakeRaw` first and `Restore` with the saved state last, whichever way it returns
(the `Append` error, or the result of the actor group, nil or not); when that `Restore`
call succeeds, the terminal state after `Run` is the state before it. When stdin is not
a terminal the state is untouched and the log of `Run` has no `MakeRaw`, no `Restore`,
no signal registration and no resize watcher. -/
theorem Run_terminal_state_round_trip_when_restored (h : Host) (c : command) (w : World) :
    (∀ oldState, w.stdinState = some oldState → h.makeRawErr = none →
      (h.restoreErr = none → (command.Run h c w).2.stdinState = some oldState) ∧
      (command.Run h c w).1 = (match h.appendErr with
        | some err => some err
        | none => h.firstErr) ∧
      ∃ delta, (command.Run h c w).2.events =
        w.events ++ [Event.makeRaw c.stdin] ++ delta ++ [Event.restore c.stdin oldState]) ∧
    (w.stdinState = none →
      (command.Run h c w).2.stdinState = none ∧
      ∃ delta, (command.Run h c w).2.events = w.events ++ delta ∧
        (∀ fd, Event.makeRaw fd ∉ delta) ∧
        (∀ fd st, Event.restore fd st ∉ delta) ∧
        Event.signalNotify ∉ delta ∧
        Event.groupAdd .resizeWatcher ∉ delta ∧
        Event.cancel .resizeWatcher ∉ delta) := by
  constructor
  · intro oldState hs hraw
    cases ha : h.appendErr with
    | some err =>
      refine ⟨?_, ?_, [Event.signalNotify, Event.groupAdd .resizeWatcher,
        Event.groupAdd .inputPump, Event.writersAppend c.stdout], ?_⟩
      · intro hr
        simp [command.Run, hs, hraw, command.deferredRestore, hr]
      · simp [command.Run, hs, hraw, command.runGroup_append_error h c true _ err ha]
      · cases hr : h.restoreErr <;>
          simp [command.Run, hs, hraw, command.runGroup_append_error h c true _ err ha,
            World.log, command.deferredRestore, hr]
    | none =>
      refine ⟨?_, ?_, [Event.signalNotify, Event.groupAdd .resizeWatcher,
        Event.groupAdd .inputPump, Event.writersAppend c.stdout,
        Event.groupAdd .outputPump, Event.groupAdd .processWaiter,
        Event.terminalDetached c.ptmx, Event.cancel .resizeWatcher,
        Event.cancel .inputPump, Event.writersRemove os.Stdout,
        Event.cancel .outputPump, Event.ptyClose c.ptmx], ?_⟩
      · intro hr
        simp [command.Run, hs, hraw, command.deferredRestore, hr]
      · simp [command.Run, hs, hraw, command.runGroup_append_ok h c true _ ha]
      · cases hr : h.restoreErr <;>
          simp [command.Run, hs, hraw, command.runGroup_append_ok h c true _ ha,
            World.log, command.deferredRestore, hr]
  · intro hs
    cases ha : h.appendErr with
    | some err =>
      refine ⟨?_, [Event.groupAdd .inputPump, Event.writersAppend c.stdout], ?_⟩ <;>
        simp [command.Run, hs, command.runGroup_append_error h c false _ err ha]
    | none =>
      refine ⟨?_, [Event.groupAdd .inputPump, Event.writersAppend c.stdout,
        Event.groupAdd .outputPump, Event.groupAdd .processWaiter,
        Event.cancel .inputPump, Event.writersRemove os.Stdout,
        Event.cancel .outputPump, Event.ptyClose c.ptmx], ?_⟩ <;>
        simp [command.Run, hs, command.runGroup_append_ok h c false _ ha]

/-- Witness for the amended C7: with a succeeding `Restore`, a terminal in state `7` is
back in state `7` after `Run`, when the group ends cleanly, when the first actor fails,
and when `Append` fails; and a pipe stays as it is. -/
theorem Run_terminal_state_round_trip_when_restored_witness :
    ttyWorld.stdinState = some 7 ∧
    (sampleHost "/home/user/project").restoreErr = none ∧
    (command.Run (sampleHost "/home/user/project") (startedCommand 1) ttyWorld).2.stdinState
      = some 7 ∧
    (command.Run actorFailHost (startedCommand 1) ttyWorld).2.stdinState = some 7 ∧
    (command.Run appendFailHost (startedCommand 1) ttyWorld).2.stdinState = some 7 ∧
    (command.Run (sampleHost "/home/user/project") (startedCommand 1) pipeWorld).2.stdinState
      = none :=
  ⟨rfl, rfl,
    ((Run_terminal_state_round_trip_when_restored (sampleHost "/home/user/project")
      (startedCommand 1) ttyWorld).1 7 rfl rfl).1 rfl,
    ((Run_terminal_state_round_trip_when_restored actorFailHost (startedCommand 1)
      ttyWorld).1 7 rfl rfl).1 rfl,
    ((Run_terminal_state_round_trip_when_restored appendFailHost (startedCommand 1)
      ttyWorld).1 7 rfl rfl).1 rfl,
    ((Run_terminal_state_round_trip_when_restored (sampleHost "/home/user/project")
      (startedCommand 1) pipeWorld).2 rfl).1⟩

/-- C8, evaluated on the code. After a successful `Start` with pty `3`: when
`term.MakeRaw` fails, `Run` returns the raw-mode error and the world is untouched, so
the pty has not been closed; when `writers.Append` fails, `Run` returns that error and
the pty has not been closed either; on the path through the actor group it is closed
once. -/
theorem Run_early_returns_leave_pty_open :
    (startedCommand 1).ptmx = some 3 ∧
    command.Run rawFailHost (startedCommand 1) ttyWorld
      = (some (GoError.rawMode (GoError.external "EIO".toList)), ttyWorld) ∧
    ptyCloses 3 (command.Run rawFailHost (startedCommand 1) ttyWorld).2.events = 0 ∧
    (command.Run appendFailHost (startedCommand 1) pipeWorld).1
      = some (GoError.external "EPIPE".toList) ∧
    ptyCloses 3 (command.Run appendFailHost (startedCommand 1) pipeWorld).2.events = 0 ∧
    ptyCloses 3 (command.Run appendFailHost (startedCommand 1) ttyWorld).2.events = 0 ∧
    ptyCloses 3
      (command.Run (sampleHost "/home/user/project") (startedCommand 1) pipeWorld).2.events
      = 1 := by
  decide

/-- C9, evaluated on the code. With a standard-output handle `5` other than `os.Stdout`
and a fan-out writer without destinations, `Run` registers `5`, its teardown removes
`os.Stdout`, and `5` is still a destination when `Run` has returned; with `os.Stdout`
configured the writer is left without destinations. -/
theorem Run_leaves_configured_stdout_registered :
    (startedCommand 5).stdout = 5 ∧
    pipeWorld.writers = [] ∧
    (command.Run (sampleHost "/home/user/project") (startedCommand 5) pipeWorld).1 = none ∧
    (command.Run (sampleHost "/home/user/project") (startedCommand 5) pipeWorld).2.writers
      = [5] ∧
    Event.writersAppend 5 ∈
      (command.Run (sampleHost "/home/user/project") (startedCommand 5) pipeWorld).2.events ∧
    Event.writersRemove os.Stdout ∈
      (command.Run (sampleHost "/home/user/project") (startedCommand 5) pipeWorld).2.events ∧
    Event.writersRemove 5 ∉
      (command.Run (sampleHost "/home/user/project") (startedCommand 5) pipeWorld).2.events ∧
    (command.Run (sampleHost "/home/user/project") (startedCommand os.Stdout)
      pipeWorld).2.writers = [] := by
  decide

theorem strings.HasPrefix_iff (s p : GoString) : strings.HasPrefix s p = true ↔ p <+: s := by
  induction p generalizing s with
  | nil => simp [strings.HasPrefix]
  | cons x ps ih =>
    cases s with
    | nil => simp [strings.HasPrefix]
    | cons c s =>
      simp only [strings.HasPrefix, Bool.and_eq_true, decide_eq_true_eq, ih, List.cons_prefix_cons]
      constructor
      · intro ⟨h1, h2⟩; exact ⟨h1.symm, h2⟩
      · intro ⟨h1, h2⟩; exact ⟨h1.symm, h2⟩

theorem strings.Contains_iff (s substr : GoString) :
    strings.Contains s substr = true ↔ substr <:+: s := by
  induction s with
  | nil =>
    simp only [strings.Contains, strings.HasPrefix_iff]
    constructor
    · intro h; exact h.isInfix
    · intro h
      have : substr = [] := List.eq_nil_of_infix_nil h
      simp [this]
  | cons c s ih =>
    simp only [strings.Contains, Bool.or_eq_true, strings.HasPrefix_iff, ih]
    rw [List.infix_cons_iff]

theorem filepath.cleanLoop_fuel (rooted : Bool) :
    ∀ (fuel : Nat) (rest out : List Char) (dotdot : Nat), rest.length ≤ fuel →
      filepath.cleanLoop rooted (fuel + 1) rest out dotdot
        = filepath.cleanLoop rooted fuel rest out dotdot := by
  intro fuel
  induction fuel with
  | zero =>
    intro rest out dotdot hlen
    have : rest = [] := List.length_eq_zero.1 (Nat.le_zero.1 hlen)
    subst this
    simp [filepath.cleanLoop]
  | succ n ih =>
    intro rest out dotdot hlen
    cases rest with
    | nil => simp [filepath.cleanLoop]
    | cons c tl =>
      have htl : tl.length ≤ n := by simpa using hlen
      have htail : tl.tail.length ≤ n := by
        have := List.length_tail tl
        omega
      rw [filepath.cleanLoop, filepath.cleanLoop]
      by_cases hsep : os.IsPathSeparator c = true
      · rw [if_pos hsep, if_pos hsep]
        exact ih _ _ _ htl
      · have hc : (!os.IsPathSeparator c) = true := by simpa using hsep
        have hdrop : ((c :: tl).dropWhile (fun x => !os.IsPathSeparator x)).length ≤ n := by
          have hd : (c :: tl).dropWhile (fun x => !os.IsPathSeparator x)
              = tl.dropWhile (fun x => !os.IsPathSeparator x) := by
            simp [List.dropWhile, hc]
          rw [hd]
          exact le_trans (List.dropWhile_sublist _).length_le htl
        rw [if_neg hsep, if_neg hsep]
        split_ifs <;>
          first
          | exact ih _ _ _ htl
          | exact ih _ _ _ htail
          | exact ih _ _ _ hdrop

/-- The iteration bound used by `filepath.Clean`, the length of the path, is enough:
any larger bound gives the same result. -/
theorem filepath.cleanLoop_fuel_add (rooted : Bool) (rest out : List Char) (dotdot k : Nat) :
    filepath.cleanLoop rooted (rest.length + k) rest out dotdot
      = filepath.cleanLoop rooted rest.length rest out dotdot := by
  induction k with
  | zero => rfl
  | succ k ih =>
    rw [← ih, ← Nat.add_assoc]
    exact filepath.cleanLoop_fuel rooted (rest.length + k) rest out dotdot (Nat.le_add_right _ _)

/-- When the configured standard output is `os.Stdout` itself and it was not a
destination before, the path through the actor group leaves the destinations of the
fan-out writer as they were, provided `os.Stdout` is the only handle filtered out. -/
theorem command.Run_writers_with_os_stdout (h : Host) (c : command) (w : World)
    (hs : w.stdinState = none) (ha : h.appendErr = none) (hout : c.stdout = os.Stdout)
    (hnot : os.Stdout ∉ w.writers) :
    (command.Run h c w).2.writers = w.writers := by
  simp only [command.Run, hs, command.runGroup_append_ok h c false w ha, hout, if_neg hnot]
  rw [List.filter_append]
  have h1 : w.writers.filter (fun d => decide (d ≠ os.Stdout)) = w.writers := by
    rw [List.filter_eq_self]
    intro a ha2
    have : a ≠ os.Stdout := fun e => hnot (e ▸ ha2)
    simpa using this
  rw [h1]
  simp

end Upterm
